import Mathlib

/-!
# Course-progress reconciliation and enrollment bootstrapping

Shallow embedding of the progress-merge / enrollment-bootstrap core of a
course-marketplace backend:

* `mergeChapters`, `mergeSections`, `calculateOverallProgress` from
  `server/src/utils/utils.ts`;
* `updateUserCourseProgress` from
  `server/src/controllers/userCourseProgressController.ts`;
* `createTransaction`, `createStripePaymentIntent` from
  `server/dist/controllers/transactionController.js`;
* `getUserEnrolledCourses` from
  `server/src/controllers/userCourseProgressController.ts`.

JavaScript `Map` objects (insertion-ordered, `set` on an existing key updates
the value in place) are modelled as association lists `List (String × α)`.
Timestamps (`new Date().toISOString()`) are passed in as an explicit `now`
argument.  The document store is modelled as an explicit `Db` state record.
Numbers arising from the progress percentage are modelled as rationals `ℚ`.
-/

set_option autoImplicit false

namespace LMS

/-- ChapterProgress as fixed by `chapterProgressSchema` in
`userCourseProgressModel.ts`: `chapterId : String` (required),
`completed : Boolean` (required). -/
structure ChapterProgress where
  chapterId : String
  completed : Bool
  deriving Repr, DecidableEq

/-- SectionProgress as fixed by `sectionProgressSchema`:
`sectionId : String` (required) and an array of chapter progresses. -/
structure SectionProgress where
  sectionId : String
  chapters : List ChapterProgress
  deriving Repr, DecidableEq

/-- CourseProgress as fixed by `userCourseProgressSchema`:
composite key (userId, courseId), enrollment date, derived overall
percentage, section progresses, and a last-accessed timestamp. -/
structure CourseProgress where
  userId : String
  courseId : String
  enrollmentDate : String
  overallProgress : ℚ
  sections : List SectionProgress
  lastAccessedTimestamp : String
  deriving Repr, DecidableEq

/-! ## JavaScript `Map` model

`mapSet m k v` is `m.set(k, v)`: when `k` is already a key its value is
replaced in place (insertion order kept); otherwise the new entry is
appended.  `mapGet m k` is `m.get(k)`.  `Array.from(m.values())` is
`m.map Prod.snd`. -/

/-- JS `Map.prototype.set`: replace in place when the key exists, append
otherwise. -/
def mapSet {α : Type} (m : List (String × α)) (k : String) (v : α) :
    List (String × α) :=
  match m with
  | [] => [(k, v)]
  | (k', v') :: rest =>
      if k' = k then (k, v) :: rest else (k', v') :: mapSet rest k v

/-- JS `Map.prototype.get`. -/
def mapGet {α : Type} (m : List (String × α)) (k : String) : Option α :=
  match m with
  | [] => none
  | (k', v') :: rest => if k' = k then some v' else mapGet rest k

/-- Fold a list of values into a map keyed by `key`, i.e. the loop
`for (const x of xs) map.set(key(x), x)` run against an initial map `m`. -/
def ovMap {α : Type} (key : α → String) (m : List (String × α))
    (xs : List α) : List (String × α) :=
  xs.foldl (fun acc x => mapSet acc (key x) x) m

/-- Last element of `xs` whose `key` equals `k` (the value a JS map holds at
`k` after inserting every element of `xs` under its key). -/
def lastFind {α : Type} (key : α → String) : List α → String → Option α
  | [], _ => none
  | x :: xs, k =>
      match lastFind key xs k with
      | some y => some y
      | none => if key x = k then some x else none

/-! ## Progress merge engine (`server/src/utils/utils.ts`, lines 116–178) -/

/-- `mergeChapters` from `utils.ts`: build a map keyed by `chapterId` from
`existingChapters`, then for each incoming chapter set
`{...(map.get(id) || {}), ...newChapter}` under its id.  Chapters are
schema-typed records `{chapterId, completed}` with both fields required, so
the spread of a full incoming record over the stored one is the incoming
record itself. -/
def mergeChapters (existingChapters newChapters : List ChapterProgress) :
    List ChapterProgress :=
  let existingChaptersMap := ovMap (fun c => c.chapterId) [] existingChapters
  (ovMap (fun c => c.chapterId) existingChaptersMap newChapters).map Prod.snd

/-- `mergeSections` from `utils.ts`: build a map keyed by `sectionId` from
`existingSections`; for each incoming section, insert it as-is when its id
is absent, otherwise keep the existing section with
`section.chapters = mergeChapters(section.chapters, newSection.chapters)`. -/
def mergeSections (existingSections newSections : List SectionProgress) :
    List SectionProgress :=
  let existingSectionsMap := ovMap (fun s => s.sectionId) [] existingSections
  (newSections.foldl
    (fun m newSection =>
      match mapGet m newSection.sectionId with
      | none => mapSet m newSection.sectionId newSection
      | some s =>
          mapSet m newSection.sectionId
            { s with chapters := mergeChapters s.chapters newSection.chapters })
    existingSectionsMap).map Prod.snd

/-- No key occurs twice in the map.  All maps built by the merge engine
satisfy this (a JS `Map` cannot hold a key twice). -/
def keysNodup {α : Type} : List (String × α) → Prop
  | [] => True
  | (k, _) :: rest => mapGet rest k = none ∧ keysNodup rest

/-- Every entry stores a value under that value's own key.  All maps built
by the merge engine satisfy this. -/
def keyCoherent {α : Type} (key : α → String) (m : List (String × α)) : Prop :=
  ∀ e ∈ m, e.1 = key e.2

/-- The incoming-sections loop of `mergeSections`, named so lemmas can speak
about the intermediate map. -/
def secFold (m : List (String × SectionProgress))
    (ds : List SectionProgress) : List (String × SectionProgress) :=
  ds.foldl
    (fun m newSection =>
      match mapGet m newSection.sectionId with
      | none => mapSet m newSection.sectionId newSection
      | some s =>
          mapSet m newSection.sectionId
            { s with chapters := mergeChapters s.chapters newSection.chapters })
    m

/-- `totalChapters` accumulator inside `calculateOverallProgress`:
`sections.reduce((acc, s) => acc + s.chapters.length, 0)`. -/
def totalChapters (sections : List SectionProgress) : Nat :=
  sections.foldl (fun acc s => acc + s.chapters.length) 0

/-- `completedChapters` accumulator inside `calculateOverallProgress`:
`sections.reduce((acc, s) => acc + s.chapters.filter(c => c.completed).length, 0)`. -/
def completedChapters (sections : List SectionProgress) : Nat :=
  sections.foldl
    (fun acc s => acc + (s.chapters.filter (fun c => c.completed)).length) 0

/-- `calculateOverallProgress` from `utils.ts`:
`totalChapters > 0 ? (completedChapters / totalChapters) * 100 : 0`. -/
def calculateOverallProgress (sections : List SectionProgress) : ℚ :=
  if totalChapters sections > 0 then
    ((completedChapters sections : ℚ) / (totalChapters sections : ℚ)) * 100
  else 0

/-! ## Progress update endpoint
(`userCourseProgressController.ts`, `updateUserCourseProgress`, lines 109–153) -/

/-- `updateUserCourseProgress`: `existing` is the result of
`UserCourseProgress.get({userId, courseId})` and `bodySections` is
`req.body.sections` (the code reads `progressData.sections || []`).
When no record exists a fresh one is created with `overallProgress: 0` and
`sections: progressData.sections || []`; otherwise sections are merged,
the timestamp refreshed and `overallProgress` recomputed from the merged
sections. -/
def updateUserCourseProgress (now userId courseId : String)
    (existing : Option CourseProgress)
    (bodySections : Option (List SectionProgress)) : CourseProgress :=
  match existing with
  | none =>
      { userId := userId
        courseId := courseId
        enrollmentDate := now
        overallProgress := 0
        sections := bodySections.getD []
        lastAccessedTimestamp := now }
  | some progress =>
      let sections := mergeSections progress.sections (bodySections.getD [])
      { progress with
        sections := sections
        lastAccessedTimestamp := now
        overallProgress := calculateOverallProgress sections }

/-! ## Transaction controller
(`server/dist/controllers/transactionController.js`) -/

/-- Chapter of the authored course skeleton (only its id matters here). -/
structure CourseChapter where
  chapterId : String
  deriving Repr, DecidableEq

/-- Section of the authored course skeleton. -/
structure CourseSection where
  sectionId : String
  chapters : List CourseChapter
  deriving Repr, DecidableEq

/-- Course record: skeleton plus the enrollment set (modelled as the list of
enrolled user ids, `$ADD` appending to it). -/
structure Course where
  courseId : String
  sections : List CourseSection
  enrollments : List String
  deriving Repr, DecidableEq

/-- Transaction record as saved by `createTransaction`. -/
structure Transaction where
  dateTime : String
  userId : String
  courseId : String
  transactionId : String
  amount : Int
  paymentProvider : String
  deriving Repr, DecidableEq

/-- Document-store state: course table, transaction table and the
UserCourseProgress table keyed by (userId, courseId). -/
structure Db where
  courses : List Course
  transactions : List Transaction
  progresses : List CourseProgress
  deriving Repr, DecidableEq

/-- `Course.get(courseId)`: dynamoose `Model.get` returns the item or
`undefined` when the key is absent (it does not throw). -/
def courseGet (db : Db) (courseId : String) : Option Course :=
  db.courses.find? (fun c => c.courseId == courseId)

/-- Dynamoose `save` on a keyed model is a DynamoDB `putItem`: it overwrites
the whole item stored under the record's (userId, courseId) key, or appends
the record when no item exists under that key. -/
def progressPut (ps : List CourseProgress) (p : CourseProgress) :
    List CourseProgress :=
  if ps.any (fun q => q.userId == p.userId && q.courseId == p.courseId) then
    ps.map (fun q =>
      if q.userId == p.userId && q.courseId == p.courseId then p else q)
  else ps ++ [p]

/-- Step 3 of `createTransaction`: the `initialProgress` record built from
the fetched course — every skeleton section mapped to a SectionProgress
whose chapters are `{ chapterId, completed: false }`, with
`overallProgress: 0` and both timestamps set to now. -/
def initialProgressFor (now userId : String) (course : Course) :
    CourseProgress :=
  { userId := userId
    courseId := course.courseId
    enrollmentDate := now
    overallProgress := 0
    sections := course.sections.map (fun s =>
      { sectionId := s.sectionId
        chapters := s.chapters.map (fun ch =>
          { chapterId := ch.chapterId, completed := false }) })
    lastAccessedTimestamp := now }

/-- Result of one `createTransaction` request: HTTP status, response
message, and the store state after the handler returns. -/
structure TxnResult where
  status : Nat
  message : String
  db : Db
  deriving Repr, DecidableEq

/-- `createTransaction` from `transactionController.js`:
1. fetch the course (`undefined` when absent);
2. build and save the transaction record;
3. build and save `initialProgressFor` — when the course was absent the
   access `course.sections` throws a TypeError which the surrounding
   `catch` turns into a 500 response, with the transaction of step 2
   already persisted;
4. `$ADD` the `{ userId }` enrollment marker onto the course;
then respond with success. -/
def createTransaction (now : String) (db : Db)
    (userId courseId transactionId : String) (amount : Int)
    (paymentProvider : String) : TxnResult :=
  let course? := courseGet db courseId
  let newTransaction : Transaction :=
    { dateTime := now
      userId := userId
      courseId := courseId
      transactionId := transactionId
      amount := amount
      paymentProvider := paymentProvider }
  let db1 : Db := { db with transactions := db.transactions ++ [newTransaction] }
  match course? with
  | none =>
      { status := 500
        message := "Error creating transaction and initializing enrollment"
        db := db1 }
  | some course =>
      let initialProgress := initialProgressFor now userId course
      let db2 : Db :=
        { db1 with progresses := progressPut db1.progresses initialProgress }
      let db3 : Db :=
        { db2 with courses := db2.courses.map (fun c =>
            if c.courseId == courseId then
              { c with enrollments := c.enrollments ++ [userId] }
            else c) }
      { status := 200
        message := "Purchased course successfully"
        db := db3 }

/-- Outcome of `createStripePaymentIntent`: the amount sent to Stripe in
the `paymentIntents.create` call, the HTTP status of the response, and
whether the response body carries the intent's client secret.  The Stripe
call itself is an external collaborator, modelled as succeeding. -/
structure PaymentIntentOutcome where
  stripeAmount : Int
  status : Nat
  hasClientSecret : Bool
  deriving Repr, DecidableEq

/-- `createStripePaymentIntent` from `transactionController.js`:
`let { amount } = req.body; if (!amount || amount <= 0) amount = 50;`
(`!amount` is true for a missing field and for `0`), then create the
payment intent with that amount and return its client secret. -/
def createStripePaymentIntent (amount? : Option Int) : PaymentIntentOutcome :=
  let amount : Int :=
    match amount? with
    | none => 50
    | some v => if v ≤ 0 then 50 else v
  { stripeAmount := amount
    status := 200
    hasClientSecret := true }

/-! ## Enrolled-courses endpoint
(`userCourseProgressController.ts`, `getUserEnrolledCourses`, lines 27–69) -/

/-- Clerk authentication info attached to the request (`getAuth(req)`). -/
structure AuthInfo where
  userId : String
  deriving Repr, DecidableEq

/-- Observable outcome of one `getUserEnrolledCourses` request: HTTP status,
response message, and how many reads were issued against the progress store
(`UserCourseProgress.query`) and the course catalog (`Course.batchGet`). -/
structure EnrolledCoursesResult where
  status : Nat
  message : String
  progressReads : Nat
  courseReads : Nat
  deriving Repr, DecidableEq

/-- `getUserEnrolledCourses`: `if (!auth || auth.userId !== userId)` respond
403 "Access denied" before touching any store; otherwise query the progress
store for the user's records, answer with an empty list when none exist, and
otherwise batch-get the corresponding courses. -/
def getUserEnrolledCourses (auth : Option AuthInfo) (userId : String)
    (db : Db) : EnrolledCoursesResult :=
  match auth with
  | none =>
      { status := 403, message := "Access denied"
        progressReads := 0, courseReads := 0 }
  | some a =>
    if a.userId ≠ userId then
      { status := 403, message := "Access denied"
        progressReads := 0, courseReads := 0 }
    else
      let enrolledCourses := db.progresses.filter (fun p => p.userId == userId)
      if enrolledCourses.isEmpty then
        { status := 200, message := "No enrolled courses found"
          progressReads := 1, courseReads := 0 }
      else
        { status := 200, message := "Enrolled courses retrieved successfully"
          progressReads := 1, courseReads := 1 }

/-! ## Association-map lemmas -/

theorem mapGet_mapSet_self {α : Type} (m : List (String × α)) (k : String)
    (v : α) : mapGet (mapSet m k v) k = some v := by
  induction m with
  | nil => simp [mapSet, mapGet]
  | cons e rest ih =>
      obtain ⟨a, b⟩ := e
      by_cases ha : a = k
      · simp [mapSet, ha, mapGet]
      · simp [mapSet, ha, mapGet, ih]

theorem mapGet_mapSet_ne {α : Type} (m : List (String × α)) {k k' : String}
    (v : α) (h : k' ≠ k) : mapGet (mapSet m k v) k' = mapGet m k' := by
  induction m with
  | nil => simp [mapSet, mapGet, Ne.symm h]
  | cons e rest ih =>
      obtain ⟨a, b⟩ := e
      by_cases ha : a = k
      · subst ha
        simp [mapSet, mapGet, Ne.symm h]
      · by_cases ha' : a = k'
        · simp [mapSet, ha, mapGet, ha', h]
        · simp [mapSet, ha, mapGet, ha', ih]

theorem mapSet_eq_of_mapGet {α : Type} (m : List (String × α)) {k : String}
    {v : α} (h : mapGet m k = some v) : mapSet m k v = m := by
  induction m with
  | nil => simp [mapGet] at h
  | cons e rest ih =>
      obtain ⟨a, b⟩ := e
      by_cases ha : a = k
      · subst ha
        simp [mapGet] at h
        simp [mapSet, h]
      · simp [mapGet, ha] at h
        simp [mapSet, ha, ih h]

theorem mapGet_mem_values {α : Type} (m : List (String × α)) {k : String}
    {v : α} (h : mapGet m k = some v) : v ∈ m.map Prod.snd := by
  induction m with
  | nil => simp [mapGet] at h
  | cons e rest ih =>
      obtain ⟨a, b⟩ := e
      by_cases ha : a = k
      · simp [mapGet, ha] at h
        simp [h]
      · simp [mapGet, ha] at h
        simp [ih h]

theorem mapGet_none_not_mem {α : Type} (m : List (String × α)) {k : String}
    (h : mapGet m k = none) : ∀ e ∈ m, e.1 ≠ k := by
  induction m with
  | nil => simp
  | cons e rest ih =>
      obtain ⟨a, b⟩ := e
      by_cases ha : a = k
      · simp [mapGet, ha] at h
      · simp [mapGet, ha] at h
        intro x hx
        rcases List.mem_cons.mp hx with hx | hx
        · simp [hx, ha]
        · exact ih h x hx

theorem keysNodup_mapSet {α : Type} (m : List (String × α)) (k : String)
    (v : α) (h : keysNodup m) : keysNodup (mapSet m k v) := by
  induction m with
  | nil => simp [mapSet, keysNodup, mapGet]
  | cons e rest ih =>
      obtain ⟨a, b⟩ := e
      obtain ⟨hnone, hrest⟩ := h
      by_cases ha : a = k
      · subst ha
        simp [mapSet, keysNodup]
        exact ⟨hnone, hrest⟩
      · simp [mapSet, ha, keysNodup]
        refine ⟨?_, ih hrest⟩
        rw [mapGet_mapSet_ne rest v ha]
        exact hnone

theorem keyCoherent_mapSet {α : Type} (key : α → String)
    (m : List (String × α)) {k : String} {v : α} (h : keyCoherent key m)
    (hk : k = key v) : keyCoherent key (mapSet m k v) := by
  induction m with
  | nil =>
      intro e he
      simp [mapSet] at he
      simp [he, hk]
  | cons e rest ih =>
      intro x hx
      obtain ⟨a, b⟩ := e
      by_cases ha : a = k
      · simp [mapSet, ha] at hx
        rcases hx with hx | hx
        · simp [hx, hk]
        · exact h x (by simp [hx])
      · simp [mapSet, ha] at hx
        rcases hx with hx | hx
        · exact h x (by simp [hx])
        · exact ih (fun y hy => h y (by simp [hy])) x hx

theorem ovMap_nil' {α : Type} (key : α → String) (m : List (String × α)) :
    ovMap key m [] = m := rfl

theorem ovMap_cons' {α : Type} (key : α → String) (m : List (String × α))
    (x : α) (xs : List α) :
    ovMap key m (x :: xs) = ovMap key (mapSet m (key x) x) xs := rfl

theorem mapGet_ovMap {α : Type} (key : α → String) (xs : List α) :
    ∀ (m : List (String × α)) (k : String),
      mapGet (ovMap key m xs) k =
        match lastFind key xs k with
        | some x => some x
        | none => mapGet m k := by
  induction xs with
  | nil => intro m k; simp [ovMap_nil', lastFind]
  | cons x xs ih =>
      intro m k
      rw [ovMap_cons', ih]
      show _ = (match lastFind key (x :: xs) k with
        | some y => some y
        | none => mapGet m k)
      rw [lastFind]
      cases hl : lastFind key xs k with
      | some y => simp
      | none =>
          by_cases hx : key x = k
          · simp [hx, mapGet_mapSet_self]
          · simp [hx, mapGet_mapSet_ne m x (fun h => hx h.symm)]

theorem ovMap_fix {α : Type} (key : α → String) (xs : List α) :
    ∀ (m : List (String × α)),
      (∀ x ∈ xs, mapGet m (key x) = some x) → ovMap key m xs = m := by
  induction xs with
  | nil => intro m _; rfl
  | cons x xs ih =>
      intro m h
      rw [ovMap_cons', mapSet_eq_of_mapGet m (h x (by simp))]
      exact ih m (fun y hy => h y (by simp [hy]))

theorem lastFind_eq_none {α : Type} (key : α → String) (xs : List α)
    (k : String) (h : ∀ x ∈ xs, key x ≠ k) : lastFind key xs k = none := by
  induction xs with
  | nil => rfl
  | cons x xs ih =>
      rw [lastFind, ih (fun y hy => h y (by simp [hy]))]
      simp [h x (by simp)]

theorem lastFind_nodup {α : Type} (key : α → String) (xs : List α)
    (h : (xs.map key).Nodup) {x : α} (hx : x ∈ xs) :
    lastFind key xs (key x) = some x := by
  induction xs with
  | nil => simp at hx
  | cons y ys ih =>
      simp [List.nodup_cons] at h
      rcases List.mem_cons.mp hx with hxy | hxy
      · subst hxy
        rw [lastFind, lastFind_eq_none key ys (key x) (fun z hz hkz => h.1 z hz hkz)]
        simp
      · rw [lastFind, ih h.2 hxy]

theorem ovMap_cons_escape {α : Type} (key : α → String) (xs : List α) :
    ∀ (m : List (String × α)) (k : String) (v : α),
      (∀ x ∈ xs, key x ≠ k) →
      ovMap key ((k, v) :: m) xs = (k, v) :: ovMap key m xs := by
  induction xs with
  | nil => intro m k v _; rfl
  | cons x xs ih =>
      intro m k v h
      have hx : key x ≠ k := h x (by simp)
      have hne : ¬(k = key x) := fun hh => hx hh.symm
      rw [ovMap_cons' key ((k, v) :: m) x xs, ovMap_cons' key m x xs]
      have hms : mapSet ((k, v) :: m) (key x) x = (k, v) :: mapSet m (key x) x := by
        simp [mapSet, hne]
      rw [hms, ih (mapSet m (key x) x) k v (fun y hy => h y (by simp [hy]))]

theorem ovMap_values_id {α : Type} (key : α → String)
    (m : List (String × α)) (hn : keysNodup m) (hc : keyCoherent key m) :
    ovMap key [] (m.map Prod.snd) = m := by
  induction m with
  | nil => rfl
  | cons e rest ih =>
      obtain ⟨k, v⟩ := e
      obtain ⟨hnone, hrest⟩ := hn
      have hkv : k = key v := hc (k, v) (by simp)
      simp only [List.map_cons]
      rw [ovMap_cons']
      rw [show mapSet ([] : List (String × α)) (key v) v = (k, v) :: [] by
        simp [mapSet, hkv]]
      rw [ovMap_cons_escape key (rest.map Prod.snd) [] k v ?_]
      · rw [ih hrest (fun y hy => hc y (by simp [hy]))]
      · intro x hx
        rcases List.mem_map.mp hx with ⟨e, he, hev⟩
        have := hc e (by simp [he])
        rw [← hev, ← this]
        exact mapGet_none_not_mem rest hnone e he

theorem ovMap_nil_entries {α : Type} (key : α → String) (xs : List α)
    (h : (xs.map key).Nodup) :
    ovMap key [] xs = xs.map (fun x => (key x, x)) := by
  induction xs with
  | nil => rfl
  | cons x ys ih =>
      simp [List.nodup_cons] at h
      rw [ovMap_cons']
      rw [show mapSet ([] : List (String × α)) (key x) x = [(key x, x)] from rfl]
      rw [ovMap_cons_escape key ys [] (key x) x (fun z hz hkz => h.1 z hz hkz)]
      rw [ih h.2]
      rfl

theorem keysNodup_ovMap {α : Type} (key : α → String) (xs : List α) :
    ∀ (m : List (String × α)), keysNodup m → keysNodup (ovMap key m xs) := by
  induction xs with
  | nil => intro m h; exact h
  | cons x xs ih =>
      intro m h
      rw [ovMap_cons']
      exact ih _ (keysNodup_mapSet m (key x) x h)

theorem keyCoherent_ovMap {α : Type} (key : α → String) (xs : List α) :
    ∀ (m : List (String × α)),
      keyCoherent key m → keyCoherent key (ovMap key m xs) := by
  induction xs with
  | nil => intro m h; exact h
  | cons x xs ih =>
      intro m h
      rw [ovMap_cons']
      exact ih _ (keyCoherent_mapSet key m h rfl)

theorem mapGet_coherent {α : Type} (key : α → String)
    (m : List (String × α)) {k : String} {v : α} (h : keyCoherent key m)
    (hg : mapGet m k = some v) : key v = k := by
  induction m with
  | nil => simp [mapGet] at hg
  | cons e rest ih =>
      obtain ⟨a, b⟩ := e
      by_cases ha : a = k
      · simp [mapGet, ha] at hg
        have := h (a, b) (by simp)
        simp at this
        rw [← hg, ← this, ha]
      · simp [mapGet, ha] at hg
        exact ih (fun y hy => h y (by simp [hy])) hg

theorem mapGet_ovMap_nil {α : Type} (key : α → String) (xs : List α)
    (k : String) : mapGet (ovMap key [] xs) k = lastFind key xs k := by
  rw [mapGet_ovMap]
  cases h : lastFind key xs k <;> simp [mapGet]

/-! ## Merge-engine lemmas -/

theorem mergeChapters_eq (existingChapters newChapters : List ChapterProgress) :
    mergeChapters existingChapters newChapters =
      (ovMap (fun c => c.chapterId)
        (ovMap (fun c => c.chapterId) [] existingChapters)
        newChapters).map Prod.snd := rfl

theorem keyCoherent_nil {α : Type} (key : α → String) :
    keyCoherent key ([] : List (String × α)) := by
  intro e he
  simp at he

theorem mergeChapters_idem (E D : List ChapterProgress)
    (hD : (D.map fun c => c.chapterId).Nodup) :
    mergeChapters (mergeChapters E D) D = mergeChapters E D := by
  have hn1 : keysNodup (ovMap (fun c : ChapterProgress => c.chapterId)
      (ovMap (fun c => c.chapterId) [] E) D) :=
    keysNodup_ovMap _ D _ (keysNodup_ovMap _ E [] trivial)
  have hc1 : keyCoherent (fun c : ChapterProgress => c.chapterId)
      (ovMap (fun c => c.chapterId) (ovMap (fun c => c.chapterId) [] E) D) :=
    keyCoherent_ovMap _ D _ (keyCoherent_ovMap _ E [] (keyCoherent_nil _))
  have hfix : ∀ c ∈ D,
      mapGet (ovMap (fun c : ChapterProgress => c.chapterId)
        (ovMap (fun c => c.chapterId) [] E) D) c.chapterId = some c := by
    intro c hcD
    rw [mapGet_ovMap]
    rw [lastFind_nodup (fun c : ChapterProgress => c.chapterId) D hD hcD]
  simp only [mergeChapters_eq]
  rw [ovMap_values_id _ _ hn1 hc1, ovMap_fix _ D _ hfix]

theorem map_snd_pair {α : Type} (key : α → String) (xs : List α) :
    (xs.map (fun x => (key x, x))).map Prod.snd = xs := by
  induction xs with
  | nil => rfl
  | cons x l ih => simp [ih]

theorem mergeChapters_self (X : List ChapterProgress)
    (hX : (X.map fun c => c.chapterId).Nodup) : mergeChapters X X = X := by
  have hfix : ∀ c ∈ X,
      mapGet (ovMap (fun c : ChapterProgress => c.chapterId) [] X)
        c.chapterId = some c := by
    intro c hcX
    rw [mapGet_ovMap_nil]
    exact lastFind_nodup (fun c : ChapterProgress => c.chapterId) X hX hcX
  simp only [mergeChapters_eq]
  rw [ovMap_fix _ X _ hfix, ovMap_nil_entries _ X hX]
  exact map_snd_pair _ X

theorem mergeChapters_mem (E D : List ChapterProgress)
    (hE : (E.map fun c => c.chapterId).Nodup) {c : ChapterProgress}
    (hc : c ∈ E) (hno : ∀ d ∈ D, d.chapterId ≠ c.chapterId) :
    c ∈ mergeChapters E D := by
  have hg : mapGet (ovMap (fun c : ChapterProgress => c.chapterId)
      (ovMap (fun c => c.chapterId) [] E) D) c.chapterId = some c := by
    rw [mapGet_ovMap]
    rw [lastFind_eq_none (fun c : ChapterProgress => c.chapterId) D
      c.chapterId hno]
    rw [mapGet_ovMap_nil]
    exact lastFind_nodup (fun c : ChapterProgress => c.chapterId) E hE hc
  rw [mergeChapters_eq]
  exact mapGet_mem_values _ hg

theorem mergeSections_eq (existingSections newSections : List SectionProgress) :
    mergeSections existingSections newSections =
      (secFold (ovMap (fun s => s.sectionId) [] existingSections)
        newSections).map Prod.snd := rfl

theorem secFold_cons (m : List (String × SectionProgress))
    (d : SectionProgress) (ds : List SectionProgress) :
    secFold m (d :: ds) =
      secFold
        (match mapGet m d.sectionId with
         | none => mapSet m d.sectionId d
         | some s =>
             mapSet m d.sectionId
               { s with chapters := mergeChapters s.chapters d.chapters })
        ds := rfl

theorem mapGet_secFold_notMem (ds : List SectionProgress) :
    ∀ (m : List (String × SectionProgress)) (k : String),
      (∀ d ∈ ds, d.sectionId ≠ k) → mapGet (secFold m ds) k = mapGet m k := by
  induction ds with
  | nil => intro m k _; rfl
  | cons d ds ih =>
      intro m k h
      rw [secFold_cons, ih _ k (fun x hx => h x (by simp [hx]))]
      have hk : k ≠ d.sectionId := Ne.symm (h d (by simp))
      cases hg : mapGet m d.sectionId with
      | none => simp only [hg]; exact mapGet_mapSet_ne m d hk
      | some s => simp only [hg]; exact mapGet_mapSet_ne m _ hk

theorem secFold_lookup_none (ds : List SectionProgress)
    {d : SectionProgress} (hnd : (ds.map fun s => s.sectionId).Nodup)
    (hd : d ∈ ds) :
    ∀ (m : List (String × SectionProgress)),
      mapGet m d.sectionId = none →
      mapGet (secFold m ds) d.sectionId = some d := by
  induction ds with
  | nil => simp at hd
  | cons e rest ih =>
      intro m hg
      simp [List.nodup_cons] at hnd
      rcases List.mem_cons.mp hd with hde | hde
      · subst hde
        rw [secFold_cons]
        rw [mapGet_secFold_notMem rest _ d.sectionId ?_]
        · simp only [hg]
          exact mapGet_mapSet_self m d.sectionId d
        · intro x hx hxk
          exact hnd.1 x hx hxk
      · have hne : d.sectionId ≠ e.sectionId := by
          intro hcontra
          exact hnd.1 d hde hcontra
        rw [secFold_cons]
        cases hge : mapGet m e.sectionId with
        | none =>
            simp only [hge]
            exact ih hnd.2 hde _
              (by rw [mapGet_mapSet_ne m e hne]; exact hg)
        | some s =>
            simp only [hge]
            exact ih hnd.2 hde _
              (by rw [mapGet_mapSet_ne m _ hne]; exact hg)

theorem secFold_lookup_some (ds : List SectionProgress)
    {d : SectionProgress} (hnd : (ds.map fun s => s.sectionId).Nodup)
    (hd : d ∈ ds) :
    ∀ (m : List (String × SectionProgress)) (s : SectionProgress),
      mapGet m d.sectionId = some s →
      mapGet (secFold m ds) d.sectionId =
        some { s with chapters := mergeChapters s.chapters d.chapters } := by
  induction ds with
  | nil => simp at hd
  | cons e rest ih =>
      intro m s hg
      simp [List.nodup_cons] at hnd
      rcases List.mem_cons.mp hd with hde | hde
      · subst hde
        rw [secFold_cons]
        rw [mapGet_secFold_notMem rest _ d.sectionId ?_]
        · simp only [hg]
          exact mapGet_mapSet_self m d.sectionId _
        · intro x hx hxk
          exact hnd.1 x hx hxk
      · have hne : d.sectionId ≠ e.sectionId := by
          intro hcontra
          exact hnd.1 d hde hcontra
        rw [secFold_cons]
        cases hge : mapGet m e.sectionId with
        | none =>
            simp only [hge]
            exact ih hnd.2 hde _ s
              (by rw [mapGet_mapSet_ne m e hne]; exact hg)
        | some s0 =>
            simp only [hge]
            exact ih hnd.2 hde _ s
              (by rw [mapGet_mapSet_ne m _ hne]; exact hg)

theorem secFold_fix (ds : List SectionProgress) :
    ∀ (m : List (String × SectionProgress)),
      (∀ d ∈ ds, ∃ s, mapGet m d.sectionId = some s ∧
        mergeChapters s.chapters d.chapters = s.chapters) →
      secFold m ds = m := by
  induction ds with
  | nil => intro m _; rfl
  | cons d rest ih =>
      intro m h
      obtain ⟨s, hg, hch⟩ := h d (by simp)
      rw [secFold_cons]
      simp only [hg, hch]
      rw [mapSet_eq_of_mapGet m (v := s) (by rw [hg])]
      exact ih m (fun x hx => h x (by simp [hx]))

theorem keysNodup_secFold (ds : List SectionProgress) :
    ∀ (m : List (String × SectionProgress)),
      keysNodup m → keysNodup (secFold m ds) := by
  induction ds with
  | nil => intro m h; exact h
  | cons d rest ih =>
      intro m h
      rw [secFold_cons]
      cases hg : mapGet m d.sectionId with
      | none => exact ih _ (keysNodup_mapSet m _ _ h)
      | some s => exact ih _ (keysNodup_mapSet m _ _ h)

theorem keyCoherent_secFold (ds : List SectionProgress) :
    ∀ (m : List (String × SectionProgress)),
      keyCoherent (fun s => s.sectionId) m →
      keyCoherent (fun s => s.sectionId) (secFold m ds) := by
  induction ds with
  | nil => intro m h; exact h
  | cons d rest ih =>
      intro m h
      rw [secFold_cons]
      cases hg : mapGet m d.sectionId with
      | none => exact ih _ (keyCoherent_mapSet _ m h rfl)
      | some s =>
          refine ih _ (keyCoherent_mapSet _ m h ?_)
          exact (mapGet_coherent (fun s : SectionProgress => s.sectionId)
            m h hg).symm

theorem mergeSections_idem (E D : List SectionProgress)
    (hD : (D.map fun s => s.sectionId).Nodup)
    (hDc : ∀ d ∈ D, (d.chapters.map fun c => c.chapterId).Nodup) :
    mergeSections (mergeSections E D) D = mergeSections E D := by
  have hn1 : keysNodup (secFold (ovMap (fun s : SectionProgress => s.sectionId) [] E) D) :=
    keysNodup_secFold D _ (keysNodup_ovMap _ E [] trivial)
  have hc1 : keyCoherent (fun s : SectionProgress => s.sectionId)
      (secFold (ovMap (fun s => s.sectionId) [] E) D) :=
    keyCoherent_secFold D _ (keyCoherent_ovMap _ E [] (keyCoherent_nil _))
  simp only [mergeSections_eq]
  rw [ovMap_values_id _ _ hn1 hc1]
  rw [secFold_fix D _ ?_]
  intro d hd
  cases hg : mapGet (ovMap (fun s : SectionProgress => s.sectionId) [] E)
      d.sectionId with
  | none =>
      refine ⟨d, secFold_lookup_none D hD hd _ hg, ?_⟩
      exact mergeChapters_self d.chapters (hDc d hd)
  | some s0 =>
      refine ⟨{ s0 with chapters := mergeChapters s0.chapters d.chapters },
        secFold_lookup_some D hD hd _ s0 hg, ?_⟩
      exact mergeChapters_idem s0.chapters d.chapters (hDc d hd)

theorem mergeSections_self (D : List SectionProgress)
    (hD : (D.map fun s => s.sectionId).Nodup)
    (hDc : ∀ d ∈ D, (d.chapters.map fun c => c.chapterId).Nodup) :
    mergeSections D D = D := by
  simp only [mergeSections_eq]
  rw [secFold_fix D _ ?_]
  · rw [ovMap_nil_entries _ D hD]
    exact map_snd_pair _ D
  · intro d hd
    refine ⟨d, ?_, mergeChapters_self d.chapters (hDc d hd)⟩
    rw [mapGet_ovMap_nil]
    exact lastFind_nodup (fun s : SectionProgress => s.sectionId) D hD hd

theorem mergeSections_mem_of_absent (E D : List SectionProgress)
    (hE : (E.map fun s => s.sectionId).Nodup) {s : SectionProgress}
    (hs : s ∈ E) (hno : ∀ d ∈ D, d.sectionId ≠ s.sectionId) :
    s ∈ mergeSections E D := by
  have hg : mapGet (ovMap (fun s : SectionProgress => s.sectionId) [] E)
      s.sectionId = some s := by
    rw [mapGet_ovMap_nil]
    exact lastFind_nodup (fun s : SectionProgress => s.sectionId) E hE hs
  rw [mergeSections_eq]
  have hh : mapGet (secFold (ovMap (fun s : SectionProgress => s.sectionId) [] E) D)
      s.sectionId = some s := by
    rw [mapGet_secFold_notMem D _ _ hno]
    exact hg
  exact mapGet_mem_values _ hh

theorem mergeSections_chapter_retained (E D : List SectionProgress)
    (hE : (E.map fun s => s.sectionId).Nodup)
    (hD : (D.map fun s => s.sectionId).Nodup)
    {s d : SectionProgress} (hs : s ∈ E) (hd : d ∈ D)
    (heq : d.sectionId = s.sectionId)
    (hsc : (s.chapters.map fun c => c.chapterId).Nodup)
    {c : ChapterProgress} (hc : c ∈ s.chapters)
    (hno : ∀ x ∈ d.chapters, x.chapterId ≠ c.chapterId) :
    ∃ s', s' ∈ mergeSections E D ∧ s'.sectionId = s.sectionId ∧
      c ∈ s'.chapters := by
  have hg : mapGet (ovMap (fun s : SectionProgress => s.sectionId) [] E)
      d.sectionId = some s := by
    rw [mapGet_ovMap_nil, heq]
    exact lastFind_nodup (fun s : SectionProgress => s.sectionId) E hE hs
  refine ⟨{ s with chapters := mergeChapters s.chapters d.chapters }, ?_, rfl, ?_⟩
  · rw [mergeSections_eq]
    exact mapGet_mem_values _ (secFold_lookup_some D hD hd _ s hg)
  · exact mergeChapters_mem s.chapters d.chapters hsc hc hno

/-! ## Percentage lemmas -/

theorem foldl_add_map {β : Type} (f : β → Nat) (L : List β) :
    ∀ n : Nat, L.foldl (fun acc x => acc + f x) n = n + (L.map f).sum := by
  induction L with
  | nil => intro n; simp
  | cons x xs ih =>
      intro n
      rw [List.foldl_cons, ih, List.map_cons, List.sum_cons]
      omega

theorem totalChapters_eq (sections : List SectionProgress) :
    totalChapters sections = (sections.map fun s => s.chapters.length).sum := by
  rw [totalChapters, foldl_add_map]
  omega

theorem completedChapters_eq (sections : List SectionProgress) :
    completedChapters sections =
      (sections.map fun s =>
        (s.chapters.filter (fun c => c.completed)).length).sum := by
  rw [completedChapters, foldl_add_map]
  omega

theorem completedChapters_le (sections : List SectionProgress) :
    completedChapters sections ≤ totalChapters sections := by
  rw [completedChapters_eq, totalChapters_eq]
  exact List.sum_le_sum (fun s _ => List.length_filter_le _ _)

/-! ## Claim theorems -/

/-- C7: for every sequence of sections, `calculateOverallProgress` returns 0
when the total chapter count is 0, and otherwise
100 × completedChapters / totalChapters; in every case the value lies in
[0, 100]. -/
theorem calculateOverallProgress_formula_bounds (sections : List SectionProgress) :
    calculateOverallProgress sections =
      (if totalChapters sections = 0 then 0
       else 100 * (completedChapters sections : ℚ) / (totalChapters sections : ℚ)) ∧
    0 ≤ calculateOverallProgress sections ∧
    calculateOverallProgress sections ≤ 100 := by
  have hle : completedChapters sections ≤ totalChapters sections :=
    completedChapters_le sections
  by_cases h : totalChapters sections = 0
  · refine ⟨?_, ?_, ?_⟩ <;> simp [calculateOverallProgress, h]
  · have hpos : 0 < totalChapters sections := Nat.pos_of_ne_zero h
    have hposQ : (0 : ℚ) < (totalChapters sections : ℚ) := by exact_mod_cast hpos
    have hdiv : (completedChapters sections : ℚ) / (totalChapters sections : ℚ) ≤ 1 :=
      (div_le_one hposQ).mpr (by exact_mod_cast hle)
    refine ⟨?_, ?_, ?_⟩
    · rw [calculateOverallProgress, if_pos hpos, if_neg h]
      ring
    · rw [calculateOverallProgress, if_pos hpos]
      positivity
    · rw [calculateOverallProgress, if_pos hpos]
      calc ((completedChapters sections : ℚ) / (totalChapters sections : ℚ)) * 100
          ≤ 1 * 100 := by
            exact mul_le_mul_of_nonneg_right hdiv (by norm_num)
        _ = 100 := by norm_num

/-- C4: merging the same delta twice produces the same final state as merging
it once, both for `mergeSections` and for `mergeChapters`.  The uniqueness
hypotheses reflect the data model: `sections` is a set of SectionProgress
keyed by `sectionId` and `chapters` a set of ChapterProgress keyed by
`chapterId`, so ids are unique within a well-formed delta. -/
theorem mergeSections_mergeChapters_idempotent
    (E D : List SectionProgress) (EC DC : List ChapterProgress)
    (hD : (D.map fun s => s.sectionId).Nodup)
    (hDc : ∀ d ∈ D, (d.chapters.map fun c => c.chapterId).Nodup)
    (hDC : (DC.map fun c => c.chapterId).Nodup) :
    mergeSections (mergeSections E D) D = mergeSections E D ∧
    mergeChapters (mergeChapters EC DC) DC = mergeChapters EC DC :=
  ⟨mergeSections_idem E D hD hDc, mergeChapters_idem EC DC hDC⟩

/-- Witness for C4 at the spec's merge-overlay example. -/
theorem mergeSections_mergeChapters_idempotent_check :
    mergeSections
        (mergeSections [⟨"s1", [⟨"c1", false⟩, ⟨"c2", false⟩]⟩]
          [⟨"s1", [⟨"c1", true⟩]⟩])
        [⟨"s1", [⟨"c1", true⟩]⟩] =
      mergeSections [⟨"s1", [⟨"c1", false⟩, ⟨"c2", false⟩]⟩]
        [⟨"s1", [⟨"c1", true⟩]⟩] ∧
    mergeChapters
        (mergeChapters [⟨"c1", false⟩] [⟨"c1", true⟩, ⟨"c3", true⟩])
        [⟨"c1", true⟩, ⟨"c3", true⟩] =
      mergeChapters [⟨"c1", false⟩] [⟨"c1", true⟩, ⟨"c3", true⟩] :=
  mergeSections_mergeChapters_idempotent
    [⟨"s1", [⟨"c1", false⟩, ⟨"c2", false⟩]⟩] [⟨"s1", [⟨"c1", true⟩]⟩]
    [⟨"c1", false⟩] [⟨"c1", true⟩, ⟨"c3", true⟩]
    (by decide) (by decide) (by decide)

/-- C5: merging never drops an existing section or chapter — a section of E
whose id does not occur in D is in the result unchanged, and a chapter of a
matched section of E whose id does not occur in the matching delta section
stays in the merged section unchanged. -/
theorem mergeSections_union_preserving (E D : List SectionProgress)
    (hE : (E.map fun s => s.sectionId).Nodup)
    (hD : (D.map fun s => s.sectionId).Nodup) :
    (∀ s ∈ E, (∀ d ∈ D, d.sectionId ≠ s.sectionId) → s ∈ mergeSections E D) ∧
    (∀ s ∈ E, ∀ d ∈ D, d.sectionId = s.sectionId →
      (s.chapters.map fun c => c.chapterId).Nodup →
      ∀ c ∈ s.chapters, (∀ x ∈ d.chapters, x.chapterId ≠ c.chapterId) →
      ∃ s', s' ∈ mergeSections E D ∧ s'.sectionId = s.sectionId ∧
        c ∈ s'.chapters) := by
  constructor
  · intro s hs hno
    exact mergeSections_mem_of_absent E D hE hs hno
  · intro s hs d hd heq hsc c hc hno
    exact mergeSections_chapter_retained E D hE hD hs hd heq hsc hc hno

/-- Witness for C5: section s2 is untouched by a delta that only mentions
s1, and chapter c2 of s1 survives a delta that only mentions c1. -/
theorem mergeSections_union_preserving_check :
    (⟨"s2", [⟨"c3", false⟩]⟩ : SectionProgress) ∈
      mergeSections
        [⟨"s1", [⟨"c1", false⟩, ⟨"c2", false⟩]⟩, ⟨"s2", [⟨"c3", false⟩]⟩]
        [⟨"s1", [⟨"c1", true⟩]⟩] ∧
    ∃ s', s' ∈ mergeSections
        [⟨"s1", [⟨"c1", false⟩, ⟨"c2", false⟩]⟩, ⟨"s2", [⟨"c3", false⟩]⟩]
        [⟨"s1", [⟨"c1", true⟩]⟩] ∧
      s'.sectionId = "s1" ∧ (⟨"c2", false⟩ : ChapterProgress) ∈ s'.chapters :=
  ⟨(mergeSections_union_preserving
      [⟨"s1", [⟨"c1", false⟩, ⟨"c2", false⟩]⟩, ⟨"s2", [⟨"c3", false⟩]⟩]
      [⟨"s1", [⟨"c1", true⟩]⟩] (by decide) (by decide)).1
      ⟨"s2", [⟨"c3", false⟩]⟩ (by decide) (by decide),
   (mergeSections_union_preserving
      [⟨"s1", [⟨"c1", false⟩, ⟨"c2", false⟩]⟩, ⟨"s2", [⟨"c3", false⟩]⟩]
      [⟨"s1", [⟨"c1", true⟩]⟩] (by decide) (by decide)).2
      ⟨"s1", [⟨"c1", false⟩, ⟨"c2", false⟩]⟩ (by decide)
      ⟨"s1", [⟨"c1", true⟩]⟩ (by decide) (by decide) (by decide)
      ⟨"c2", false⟩ (by decide) (by decide)⟩

/-- C1 (amended): on the existing-record path the persisted record satisfies
overallProgress = calculateOverallProgress(sections); on the
no-existing-record fallback path overallProgress is the constant 0, not a
recompute from the incoming sections. -/
theorem updateUserCourseProgress_overall_invariant :
    (∀ (now userId courseId : String) (p : CourseProgress)
        (body : Option (List SectionProgress)),
      (updateUserCourseProgress now userId courseId (some p) body).overallProgress =
        calculateOverallProgress
          (updateUserCourseProgress now userId courseId (some p) body).sections) ∧
    (∀ (now userId courseId : String) (body : Option (List SectionProgress)),
      (updateUserCourseProgress now userId courseId none body).overallProgress = 0) :=
  ⟨fun _ _ _ _ _ => rfl, fun _ _ _ _ => rfl⟩

/-- Counterexample to C1 as stated: a first-ever progress payload with a
completed chapter is persisted with overallProgress 0, while the recompute
from its sections gives 100. -/
theorem updateUserCourseProgress_fresh_no_recompute :
    (updateUserCourseProgress "t1" "user1" "course1" none
        (some [⟨"s1", [⟨"c1", true⟩]⟩])).overallProgress ≠
      calculateOverallProgress
        (updateUserCourseProgress "t1" "user1" "course1" none
          (some [⟨"s1", [⟨"c1", true⟩]⟩])).sections := by
  have h1 : (updateUserCourseProgress "t1" "user1" "course1" none
      (some [⟨"s1", [⟨"c1", true⟩]⟩])).overallProgress = 0 := rfl
  have ht : totalChapters [⟨"s1", [⟨"c1", true⟩]⟩] = 1 := rfl
  have hc : completedChapters [⟨"s1", [⟨"c1", true⟩]⟩] = 1 := rfl
  have h2 : calculateOverallProgress
      (updateUserCourseProgress "t1" "user1" "course1" none
        (some [⟨"s1", [⟨"c1", true⟩]⟩])).sections = 100 := by
    show calculateOverallProgress [⟨"s1", [⟨"c1", true⟩]⟩] = 100
    unfold calculateOverallProgress
    rw [ht, hc]
    norm_num
  rw [h1, h2]
  norm_num

/-- C6 (amended): applying the report-progress operation twice with the
identical well-formed payload yields the same sections and the same
overallProgress as applying it once when a record already existed; when no
record existed, the sections still agree but overallProgress of the single
application is the constant 0 rather than the recompute. -/
theorem updateUserCourseProgress_retry (D : List SectionProgress)
    (hD : (D.map fun s => s.sectionId).Nodup)
    (hDc : ∀ d ∈ D, (d.chapters.map fun c => c.chapterId).Nodup) :
    (∀ (now now' userId courseId : String) (p : CourseProgress),
      (updateUserCourseProgress now' userId courseId
          (some (updateUserCourseProgress now userId courseId (some p) (some D)))
          (some D)).sections =
        (updateUserCourseProgress now userId courseId (some p) (some D)).sections ∧
      (updateUserCourseProgress now' userId courseId
          (some (updateUserCourseProgress now userId courseId (some p) (some D)))
          (some D)).overallProgress =
        (updateUserCourseProgress now userId courseId (some p) (some D)).overallProgress) ∧
    (∀ (now now' userId courseId : String),
      (updateUserCourseProgress now' userId courseId
          (some (updateUserCourseProgress now userId courseId none (some D)))
          (some D)).sections =
        (updateUserCourseProgress now userId courseId none (some D)).sections) := by
  constructor
  · intro now now' u c p
    constructor
    · show mergeSections (mergeSections p.sections D) D = mergeSections p.sections D
      exact mergeSections_idem p.sections D hD hDc
    · show calculateOverallProgress (mergeSections (mergeSections p.sections D) D) =
        calculateOverallProgress (mergeSections p.sections D)
      rw [mergeSections_idem p.sections D hD hDc]
  · intro now now' u c
    show mergeSections D D = D
    exact mergeSections_self D hD hDc

/-- Witness for C6's amended statement at a concrete one-chapter payload. -/
theorem updateUserCourseProgress_retry_check :
    (updateUserCourseProgress "t2" "u1" "c1"
        (some (updateUserCourseProgress "t1" "u1" "c1"
          (some ⟨"u1", "c1", "t0", 0, [], "t0"⟩)
          (some [⟨"s1", [⟨"c1", true⟩]⟩])))
        (some [⟨"s1", [⟨"c1", true⟩]⟩])).sections =
      (updateUserCourseProgress "t1" "u1" "c1"
        (some ⟨"u1", "c1", "t0", 0, [], "t0"⟩)
        (some [⟨"s1", [⟨"c1", true⟩]⟩])).sections :=
  ((updateUserCourseProgress_retry [⟨"s1", [⟨"c1", true⟩]⟩]
      (by decide) (by decide)).1 "t1" "t2" "u1" "c1"
      ⟨"u1", "c1", "t0", 0, [], "t0"⟩).1

/-- Counterexample to C6 as stated: with no pre-existing record, the first
application stores overallProgress 0 and the second stores 100, so the
operation is not idempotent on the fresh-record path. -/
theorem updateUserCourseProgress_retry_fresh_diverges :
    (updateUserCourseProgress "t2" "u2" "c2"
        (some (updateUserCourseProgress "t1" "u2" "c2" none
          (some [⟨"s1", [⟨"c1", true⟩]⟩])))
        (some [⟨"s1", [⟨"c1", true⟩]⟩])).overallProgress ≠
      (updateUserCourseProgress "t1" "u2" "c2" none
        (some [⟨"s1", [⟨"c1", true⟩]⟩])).overallProgress := by
  have h1 : (updateUserCourseProgress "t1" "u2" "c2" none
      (some [⟨"s1", [⟨"c1", true⟩]⟩])).overallProgress = 0 := rfl
  have ht : totalChapters [⟨"s1", [⟨"c1", true⟩]⟩] = 1 := rfl
  have hc : completedChapters [⟨"s1", [⟨"c1", true⟩]⟩] = 1 := rfl
  have h2 : (updateUserCourseProgress "t2" "u2" "c2"
      (some (updateUserCourseProgress "t1" "u2" "c2" none
        (some [⟨"s1", [⟨"c1", true⟩]⟩])))
      (some [⟨"s1", [⟨"c1", true⟩]⟩])).overallProgress =
      calculateOverallProgress [⟨"s1", [⟨"c1", true⟩]⟩] := rfl
  rw [h1, h2]
  unfold calculateOverallProgress
  rw [ht, hc]
  norm_num

theorem filter_completed_false (l : List CourseChapter) :
    ((l.map fun ch =>
      ({ chapterId := ch.chapterId, completed := false } : ChapterProgress)).filter
        fun c => c.completed) = [] := by
  induction l with
  | nil => rfl
  | cons ch rest ih => simp [List.filter, ih]

/-- C8: the enrollment-bootstrap step of `createTransaction` maps every
skeleton section to a SectionProgress whose chapters are exactly the
skeleton's chapters marked incomplete, with overallProgress 0 (which also
agrees with the recompute, since no chapter is completed). -/
theorem createTransaction_bootstrap_shape (now userId : String)
    (course : Course) :
    (initialProgressFor now userId course).sections =
      course.sections.map (fun s =>
        { sectionId := s.sectionId
          chapters := s.chapters.map (fun ch =>
            { chapterId := ch.chapterId, completed := false }) }) ∧
    (initialProgressFor now userId course).overallProgress = 0 ∧
    totalChapters (initialProgressFor now userId course).sections =
      (course.sections.map fun s => s.chapters.length).sum ∧
    completedChapters (initialProgressFor now userId course).sections = 0 ∧
    calculateOverallProgress (initialProgressFor now userId course).sections = 0 := by
  have hc : completedChapters (initialProgressFor now userId course).sections = 0 := by
    rw [completedChapters_eq]
    refine List.sum_eq_zero ?_
    intro x hx
    rcases List.mem_map.mp hx with ⟨s, hs, hxs⟩
    rcases List.mem_map.mp hs with ⟨s0, hs0, hss⟩
    rw [← hxs, ← hss]
    simp [filter_completed_false]
  have hmaplen : ((course.sections.map fun s =>
      ({ sectionId := s.sectionId
         chapters := s.chapters.map (fun ch =>
           { chapterId := ch.chapterId, completed := false }) } :
        SectionProgress)).map fun s => s.chapters.length) =
      course.sections.map fun s => s.chapters.length := by
    induction course.sections with
    | nil => rfl
    | cons s rest ih => simp [ih]
  refine ⟨rfl, rfl, ?_, hc, ?_⟩
  · rw [totalChapters_eq]
    show ((course.sections.map fun s =>
      ({ sectionId := s.sectionId
         chapters := s.chapters.map (fun ch =>
           { chapterId := ch.chapterId, completed := false }) } :
        SectionProgress)).map fun s => s.chapters.length).sum = _
    rw [hmaplen]
  · rw [calculateOverallProgress, hc]
    by_cases h : totalChapters (initialProgressFor now userId course).sections > 0
    · rw [if_pos h]
      norm_num
    · rw [if_neg h]

/-- C2 (amended): when the course does not exist, `createTransaction`
surfaces a 500 error, writes no CourseProgress record and adds no enrollment
marker — but the transaction record has already been persisted before the
failure is detected. -/
theorem createTransaction_course_missing
    (now userId courseId transactionId : String) (amount : Int)
    (paymentProvider : String) (db : Db)
    (h : courseGet db courseId = none) :
    (createTransaction now db userId courseId transactionId amount
        paymentProvider).status = 500 ∧
    (createTransaction now db userId courseId transactionId amount
        paymentProvider).db.progresses = db.progresses ∧
    (createTransaction now db userId courseId transactionId amount
        paymentProvider).db.courses = db.courses ∧
    (createTransaction now db userId courseId transactionId amount
        paymentProvider).db.transactions =
      db.transactions ++
        [{ dateTime := now, userId := userId, courseId := courseId,
           transactionId := transactionId, amount := amount,
           paymentProvider := paymentProvider }] := by
  simp [createTransaction, h]

/-- Witness for C2's amended statement on an empty store. -/
theorem createTransaction_course_missing_check :
    (createTransaction "t1" ⟨[], [], []⟩ "u1" "c9" "tx1" 49 "stripe").status = 500 ∧
    (createTransaction "t1" ⟨[], [], []⟩ "u1" "c9" "tx1" 49
        "stripe").db.progresses = (⟨[], [], []⟩ : Db).progresses ∧
    (createTransaction "t1" ⟨[], [], []⟩ "u1" "c9" "tx1" 49
        "stripe").db.courses = (⟨[], [], []⟩ : Db).courses ∧
    (createTransaction "t1" ⟨[], [], []⟩ "u1" "c9" "tx1" 49
        "stripe").db.transactions =
      (⟨[], [], []⟩ : Db).transactions ++
        [{ dateTime := "t1", userId := "u1", courseId := "c9",
           transactionId := "tx1", amount := 49,
           paymentProvider := "stripe" }] :=
  createTransaction_course_missing "t1" "u1" "c9" "tx1" 49 "stripe"
    ⟨[], [], []⟩ rfl

/-- Counterexample to C2 as stated: with the course absent the handler does
answer 500, but a transaction record has been persisted, contradicting "no
partial record written". -/
theorem createTransaction_course_missing_partial_write :
    (createTransaction "t1" ⟨[], [], []⟩ "u1" "c1" "tx1" 49 "stripe").status = 500 ∧
    (createTransaction "t1" ⟨[], [], []⟩ "u1" "c1" "tx1" 49
        "stripe").db.transactions ≠ [] := by
  decide

/-- C3 (code bug): re-running `createTransaction` for a (userId, courseId)
pair that already has a CourseProgress overwrites it with a fresh
all-incomplete record — the chapter ch1, completed before the retry, is
incomplete afterwards. -/
theorem createTransaction_retry_resets_progress :
    ((⟨[⟨"course1", [⟨"s1", [⟨"ch1"⟩]⟩], ["user1"]⟩], [],
        [⟨"user1", "course1", "t0", 100, [⟨"s1", [⟨"ch1", true⟩]⟩], "t0"⟩]⟩ :
      Db).progresses.map fun p => p.sections) =
        [[⟨"s1", [⟨"ch1", true⟩]⟩]] ∧
    ((createTransaction "t2"
        ⟨[⟨"course1", [⟨"s1", [⟨"ch1"⟩]⟩], ["user1"]⟩], [],
          [⟨"user1", "course1", "t0", 100, [⟨"s1", [⟨"ch1", true⟩]⟩], "t0"⟩]⟩
        "user1" "course1" "tx2" 49 "stripe").db.progresses.map
      fun p => p.sections) = [[⟨"s1", [⟨"ch1", false⟩]⟩]] := by
  constructor
  · rfl
  · rfl

/-- C9: a payment-intent request with a missing, zero or negative amount is
not rejected; the Stripe payment intent is created with amount 50 and its
client secret returned. -/
theorem createStripePaymentIntent_invalid_amount (a : Option Int)
    (h : a = none ∨ ∃ v, a = some v ∧ v ≤ 0) :
    (createStripePaymentIntent a).stripeAmount = 50 ∧
    (createStripePaymentIntent a).status = 200 ∧
    (createStripePaymentIntent a).hasClientSecret = true := by
  rcases h with h | ⟨v, hv, hle⟩
  · subst h
    exact ⟨rfl, rfl, rfl⟩
  · subst hv
    refine ⟨?_, rfl, rfl⟩
    simp [createStripePaymentIntent, hle]

/-- Witness for C9 at amount −3. -/
theorem createStripePaymentIntent_invalid_amount_check :
    (createStripePaymentIntent (some (-3))).stripeAmount = 50 ∧
    (createStripePaymentIntent (some (-3))).status = 200 ∧
    (createStripePaymentIntent (some (-3))).hasClientSecret = true :=
  createStripePaymentIntent_invalid_amount (some (-3))
    (Or.inr ⟨-3, rfl, by decide⟩)

/-- C10: when authentication is absent or the authenticated user differs
from the userId path parameter, `getUserEnrolledCourses` answers 403
"Access denied" and performs no read of the progress store or the course
catalog. -/
theorem getUserEnrolledCourses_auth_guard (auth : Option AuthInfo)
    (userId : String) (db : Db)
    (h : auth = none ∨ ∃ a, auth = some a ∧ a.userId ≠ userId) :
    (getUserEnrolledCourses auth userId db).status = 403 ∧
    (getUserEnrolledCourses auth userId db).message = "Access denied" ∧
    (getUserEnrolledCourses auth userId db).progressReads = 0 ∧
    (getUserEnrolledCourses auth userId db).courseReads = 0 := by
  rcases h with h | ⟨a, ha, hne⟩
  · subst h
    exact ⟨rfl, rfl, rfl, rfl⟩
  · subst ha
    simp [getUserEnrolledCourses, hne]

/-- Witness for C10 with a mismatched authenticated user. -/
theorem getUserEnrolledCourses_auth_guard_check :
    (getUserEnrolledCourses (some ⟨"u2"⟩) "u1" ⟨[], [], []⟩).status = 403 ∧
    (getUserEnrolledCourses (some ⟨"u2"⟩) "u1" ⟨[], [], []⟩).message =
      "Access denied" ∧
    (getUserEnrolledCourses (some ⟨"u2"⟩) "u1" ⟨[], [], []⟩).progressReads = 0 ∧
    (getUserEnrolledCourses (some ⟨"u2"⟩) "u1" ⟨[], [], []⟩).courseReads = 0 :=
  getUserEnrolledCourses_auth_guard (some ⟨"u2"⟩) "u1" ⟨[], [], []⟩
    (Or.inr ⟨⟨"u2"⟩, rfl, by decide⟩)

end LMS
